import Mathlib

/-
Verification of the incremental snapshot synchronization scripts
(update_ability_map.js, update_pokemon_map.js, update_moves_es_map.js).

The scripts are embedded shallowly:
- JS objects used as string-keyed maps become association lists
  `List (String × α)` (JS objects have unique keys; property update keeps
  the position of an existing key, a new key is appended).
- JS truthiness of a nullable string is made explicit (`jsStrOrNull`):
  both null/undefined and the empty string are falsy.
- The remote catalog, the filesystem and the per-entry fetch+extract step
  are oracles passed to the engine as functions; a failed fetch is `none`.
- JS finite numbers that the scripts only ever compare with integers are
  modelled as `Int`; NaN/Infinity/non-numbers are separate constructors of
  `CountField` (for the probe) or `none` (for the parsed pool size).
- The engine run is a pure function from its oracles and inputs to a
  `RunResult` recording the loaded snapshot, the known keys, the missing
  list, the outcome of the run and the ordered list of filesystem effects.
-/

/-- JS truthiness on a nullable string: `x ? String(x) : null`.
Both null and the empty string collapse to `none`. -/
def jsStrOrNull : Option String → Option String
  | some s => if s = "" then none else some s
  | none => none

/-- JS truthiness test of a nullable string as a Bool. -/
def jsTruthyStr : Option String → Bool
  | some s => !(s == "")
  | none => false

/-- Splitting a character list on the slash character, mirroring
`url.split("/")` of the scripts. -/
def splitSlashAux : List Char → List Char → List String
  | acc, [] => [String.mk acc.reverse]
  | acc, c :: rest =>
    if c = '/' then String.mk acc.reverse :: splitSlashAux [] rest
    else splitSlashAux (c :: acc) rest

/-- The scripts' `urlPath.split("/").filter(Boolean).pop()`: the last
nonempty slash-separated segment of a path, or `none`. -/
def lastSegment (s : String) : Option String :=
  ((splitSlashAux [] s.data).filter (fun t => !(t == ""))).getLast?

/-- One entry of the remote listing (`results[i]`).  `name := none` models a
null entry or a missing/null `name` field; the scripts additionally treat an
empty-string name as falsy via `results[i] && results[i].name`. -/
structure ListingEntry where
  name : Option String
deriving DecidableEq

/-- The scripts' `results[i] && results[i].name ? results[i].name : null`. -/
def entryName (e : ListingEntry) : Option String :=
  jsStrOrNull e.name

/-- All name strings literally present in the listing (including a possible
empty string), used to state the spec's `names(L)`. -/
def listingNames (listing : List ListingEntry) : List String :=
  listing.filterMap (fun e => e.name)

/-- Stage 2 of the engine: the `missing` loop of the scripts.
`if (name && !knownKeys.has(name)) missing.push(name)`. -/
def computeMissing : List ListingEntry → List String → List String
  | [], _ => []
  | e :: rest, known =>
    match entryName e with
    | some n =>
      if known.contains n then computeMissing rest known
      else n :: computeMissing rest known
    | none => computeMissing rest known

/-- The `count` field of a listing response as the scripts can observe it:
absent (missing field or non-object response), present but not a number,
NaN, an infinity, or a finite number (modelled as an integer). -/
inductive CountField
  | absent
  | nonNumber
  | nan
  | inf
  | negInf
  | finite (n : Int)
deriving DecidableEq

/-- The scripts' `getCountFromListResponse`: the count if it is a finite
number (`typeof listJson.count === "number"` and `isFinite`), else null. -/
def getCountFromListResponse : CountField → Option Int
  | CountField.finite n => some n
  | _ => none

/-- Replacement/insertion of one key into a JS-object-style association
list: `map[name] = value` keeps an existing key in place and appends a new
key at the end. -/
def insertRec {α : Type} : List (String × α) → String → α → List (String × α)
  | [], k, v => [(k, v)]
  | (k0, v0) :: rest, k, v =>
    if k0 = k then (k0, v) :: rest else (k0, v0) :: insertRec rest k v

/-- The worker body of step 3 folded sequentially over a list of names:
a successful fetch stores its record under its own key, a failed fetch
leaves the map untouched (`catch` branch). -/
def mergeList {α : Type} : List (String × α) → List String → (String → Option α) → List (String × α)
  | m0, [], _ => m0
  | m0, n :: rest, fetch =>
    match fetch n with
    | some v => mergeList (insertRec m0 n v) rest fetch
    | none => mergeList m0 rest fetch

/-- Number of workers started by `withPool`:
`Math.min(poolSize, items.length)` fed to `Array.from(\x7b length: n \x7d)`.
`none` models `Number(...)` = NaN (an array of length NaN is empty), a
negative pool also yields an empty worker array. -/
def numWorkers (pool : Option Int) (len : Nat) : Nat :=
  match pool with
  | none => 0
  | some z => if z < 0 then 0 else min z.toNat len

/-- Execution of the worker pool on the shared index counter: `p` is the
next index to hand out, the second argument is the number of items not yet
handed out (`len - p`), the third is the number of active workers.  Each
step a worker reads and increments the shared counter (atomic between
awaits on the single-threaded event loop) and attempts that item; the
oracle `ok` records whether the attempt succeeds.  When no items remain
every worker's `while (p < items.length)` fails and it returns, producing
no further attempts. -/
def poolExecGo (ok : Nat → Bool) : Nat → Nat → Nat → List (Nat × Bool)
  | _, _, 0 => []
  | _, 0, _ + 1 => []
  | p, r + 1, a + 1 => (p, ok p) :: poolExecGo ok (p + 1) r (a + 1)

/-- The attempts performed by `withPool(items, poolSize, workerFn)` over a
list of `len` items, with their outcomes. -/
def withPoolAttempts (len : Nat) (pool : Option Int) (ok : Nat → Bool) : List (Nat × Bool) :=
  poolExecGo ok 0 len (numWorkers pool len)

/-- Effect of attempting item `idx` of the missing list on the in-memory
map: on success `map[name] = record`, on failure nothing. -/
def applyAttempt {α : Type} (missing : List String) (fetch : String → Option α)
    (m : List (String × α)) (idx : Nat) : List (String × α) :=
  match missing[idx]? with
  | some name =>
    match fetch name with
    | some v => insertRec m name v
    | none => m
  | none => m

/-- Result of step 3 of a run: the merged map after the pool finishes, the
number of added entries and the number of failed entries. -/
def poolOutcome {α : Type} (m0 : List (String × α)) (missing : List String)
    (fetch : String → Option α) (pool : Option Int) :
    List (String × α) × Nat × Nat :=
  let att := (withPoolAttempts missing.length pool
    (fun i => (missing[i]?.bind fetch).isSome)).map Prod.fst
  (att.foldl (applyAttempt missing fetch) m0,
   (att.filter (fun i => (missing[i]?.bind fetch).isSome)).length,
   (att.filter (fun i => !(missing[i]?.bind fetch).isSome)).length)

/-- One persisted-state effect of a run, in program order. -/
inductive FsEvent
  | writeSnapshot (fileName : String)
  | writeManifest (url : String) (version : String)
  | deleteFile (fileName : String)
deriving DecidableEq

/-- How a run ended: stopped at the staleness probe, stopped because the
diff was empty, or published a new snapshot file. -/
inductive Outcome (α : Type)
  | stoppedAtProbe
  | stoppedNoMissing
  | published (snapshot : List (String × α)) (newFileName : String)
deriving DecidableEq

/-- Observable result of one engine run. -/
structure RunResult (α : Type) where
  loaded : List (String × α)
  known : List String
  missing : List String
  outcome : Outcome α
  events : List FsEvent
deriving DecidableEq

/-- Resource-specific configuration of the shared engine: the snapshot file
stem (`ability_map`, `pokemon_map`) and the public directory name. -/
structure EngineCfg where
  stem : String
  dir : String

/-- `ability_map.${version}.json` — the new dated snapshot file name. -/
def newFileOf (cfg : EngineCfg) (today : String) : String :=
  cfg.stem ++ "." ++ today ++ ".json"

/-- File name referenced by the manifest pointer, if any:
`url.split("/").filter(Boolean).pop()` applied to the truthy manifest URL. -/
def oldFileOf (url0 : Option String) : Option String :=
  (jsStrOrNull url0).bind lastSegment

/-- Step 0 of the ability/pokemon scripts: load the previous snapshot when
the manifest points at an existing file, else start empty (bootstrap). -/
def loadStage {α : Type} (fs : String → Bool) (content : String → List (String × α))
    (url0 : Option String) : List (String × α) :=
  match oldFileOf url0 with
  | some g => if fs g then content g else []
  | none => []

/-- `new Set(Object.keys(map))` — the known-key set of the loaded map. -/
def keysOf {α : Type} (m : List (String × α)) : List String :=
  (m.map Prod.fst).dedup

/-- The ability/pokemon staleness short-circuit:
`!isBootstrap && apiCount !== null && apiCount <= localCount`. -/
def probeStops (isBoot : Bool) (api : Option Int) (localCount : Nat) : Bool :=
  !isBoot && (match api with
    | some c => decide (c ≤ (localCount : Int))
    | none => false)

/-- The moves staleness short-circuit, which has no bootstrap guard:
`apiCount !== null && apiCount <= localCount`. -/
def movesProbeStops (api : Option Int) (localCount : Nat) : Bool :=
  match api with
  | some c => decide (c ≤ (localCount : Int))
  | none => false

/-- Steps 4-6 of a publishing run, in program order: write the new dated
snapshot file, rewrite the manifest to point at it, then best-effort delete
the old file when its name was known and differs. -/
def publishEvents (cfg : EngineCfg) (today : String) (oldF : Option String) : List FsEvent :=
  FsEvent.writeSnapshot (newFileOf cfg today) ::
  FsEvent.writeManifest ("/" ++ cfg.dir ++ "/" ++ newFileOf cfg today) today ::
  (match oldF with
   | some g => if g = newFileOf cfg today then [] else [FsEvent.deleteFile g]
   | none => [])

/-- The shared engine of update_ability_map.js / update_pokemon_map.js as a
pure function of its oracles: filesystem existence `fs`, file contents
`content`, the manifest pointer `url0`, the probe response, the full
listing, the parsed pool size, the per-name fetch+extract oracle and
today's UTC date string. -/
def engineRun {α : Type} (cfg : EngineCfg) (fs : String → Bool)
    (content : String → List (String × α)) (url0 : Option String)
    (probe : CountField) (listing : List ListingEntry) (pool : Option Int)
    (fetch : String → Option α) (today : String) : RunResult α :=
  let loaded := loadStage fs content url0
  let known := keysOf loaded
  if probeStops (known.length == 0) (getCountFromListResponse probe) known.length then
    ⟨loaded, known, [], Outcome.stoppedAtProbe, []⟩
  else
    let missing := computeMissing listing known
    if missing.isEmpty then
      ⟨loaded, known, missing, Outcome.stoppedNoMissing, []⟩
    else
      ⟨loaded, known, missing,
        Outcome.published (poolOutcome loaded missing fetch pool).1 (newFileOf cfg today),
        publishEvents cfg today (oldFileOf url0)⟩

/-- `move_es_map.${version}.json`. -/
def movesNewFile (today : String) : String :=
  String.append (String.append ("move_es_map.") today) (".json")

/-- Steps 4-6 of a publishing moves run (the old file name is always known
there). -/
def movesEvents (today : String) (oldF : String) : List FsEvent :=
  FsEvent.writeSnapshot (movesNewFile today) ::
  FsEvent.writeManifest ("/moves/" ++ movesNewFile today) today ::
  (if oldF = movesNewFile today then [] else [FsEvent.deleteFile oldF])

/-- The engine of update_moves_es_map.js.  Unlike the ability/pokemon
scripts it aborts fatally when the manifest has no `moves_url`, when no
file name can be derived from it, or when the referenced file does not
exist; and its probe short-circuit has no bootstrap guard. -/
def movesRun {α : Type} (fs : String → Bool)
    (content : String → List (String × α)) (url0 : Option String)
    (probe : CountField) (listing : List ListingEntry) (pool : Option Int)
    (fetch : String → Option α) (today : String) :
    Except String (RunResult α) :=
  match jsStrOrNull url0 with
  | none => Except.error ("manifest.json no tiene moves_url")
  | some urlPath =>
    match lastSegment urlPath with
    | none => Except.error ("No pude deducir el nombre del JSON actual desde moves_url")
    | some oldF =>
      if fs oldF then
        let loaded := content oldF
        let known := keysOf loaded
        if movesProbeStops (getCountFromListResponse probe) known.length then
          Except.ok ⟨loaded, known, [], Outcome.stoppedAtProbe, []⟩
        else
          let missing := computeMissing listing known
          if missing.isEmpty then
            Except.ok ⟨loaded, known, missing, Outcome.stoppedNoMissing, []⟩
          else
            Except.ok ⟨loaded, known, missing,
              Outcome.published (poolOutcome loaded missing fetch pool).1 (movesNewFile today),
              movesEvents today oldF⟩
      else Except.error (String.append ("No existe el archivo actual: ") oldF)

/-- Effect of one persisted-state event on the set of snapshot files on
disk: a snapshot write creates the file if absent (or overwrites it in
place), `safeUnlink` removes it if present, a manifest write does not touch
snapshot files. -/
def applyFs (files : List String) : FsEvent → List String
  | FsEvent.writeSnapshot f => if files.contains f then files else files ++ [f]
  | FsEvent.deleteFile f => files.erase f
  | FsEvent.writeManifest _ _ => files

/-- The set of snapshot files on disk after a run's events. -/
def runFs (files : List String) (evts : List FsEvent) : List String :=
  evts.foldl applyFs files

/-- Configuration of the abilities script. -/
def abilityCfg : EngineCfg := ⟨("ability_map"), ("abilities")⟩

/-- Configuration of the pokemon script. -/
def pokemonCfg : EngineCfg := ⟨("pokemon_map"), ("pokemon")⟩

/-- One entry of a detail document's `names` array.  `language` is the
nested `language.name`; `none` models a null entry, a missing `language`
or a missing nested name — each of which fails the scripts' guard
`n && n.language && n.language.name === "es" && n.name` identically. -/
structure NameEntry where
  name : Option String
  language : Option String
deriving DecidableEq

/-- A raw ability detail document, restricted to the fields the display
extractor reads: the localized `names` array (empty when `json.names` is
not an array) and the document's own `name`. -/
structure AbilityDoc where
  names : List NameEntry
  name : Option String
deriving DecidableEq

/-- The abilities script's `pickNameEsOrEn`: first Spanish entry with a
truthy name, else first English one, else the document's own name if
truthy, else the empty string. -/
def pickNameEsOrEn (doc : AbilityDoc) : String :=
  match doc.names.find? (fun n => n.language == some ("es") && jsTruthyStr n.name) with
  | some n => n.name.getD ""
  | none =>
    match doc.names.find? (fun n => n.language == some ("en") && jsTruthyStr n.name) with
    | some n => n.name.getD ""
    | none => if jsTruthyStr doc.name then doc.name.getD "" else ""

/-- The display value the abilities script stores for a fetched key:
`pickNameEsOrEn(a) || name`. -/
def abilityDisplay (doc : AbilityDoc) (key : String) : String :=
  let p := pickNameEsOrEn doc
  if p = "" then key else p

/-- A raw move detail document, restricted to its `names` array. -/
structure MoveDoc where
  names : List NameEntry
deriving DecidableEq

/-- The moves script's `pickSpanishName`: the first Spanish entry's truthy
name, or null. -/
def pickSpanishName (names : List NameEntry) : Option String :=
  (names.find? (fun n => n.language == some ("es") && jsTruthyStr n.name)).bind
    (fun n => n.name)

/-- The display value the moves script stores for a fetched key:
`pickSpanishName(mv) || null` — there is no English or key fallback. -/
def moveDisplay (doc : MoveDoc) : Option String :=
  jsStrOrNull (pickSpanishName doc.names)

theorem lookup_eq_none_of_not_mem {α : Type} (m : List (String × α)) (k : String)
    (h : k ∉ m.map Prod.fst) : m.lookup k = none := by
  induction m with
  | nil => rfl
  | cons hd t ih =>
    obtain ⟨k0, v0⟩ := hd
    simp only [List.map_cons, List.mem_cons, not_or] at h
    have hne : (k == k0) = false := by simpa using h.1
    simp [List.lookup, hne, ih h.2]

theorem lookup_insertRec {α : Type} (m : List (String × α)) (k : String) (v : α) (x : String) :
    (insertRec m k v).lookup x = if x = k then some v else m.lookup x := by
  induction m with
  | nil =>
    by_cases hx : x = k
    · simp [insertRec, List.lookup, hx]
    · have : (x == k) = false := by simpa using hx
      simp [insertRec, List.lookup, this, hx]
  | cons hd t ih =>
    obtain ⟨k0, v0⟩ := hd
    by_cases h0 : k0 = k
    · subst h0
      by_cases hx : x = k0
      · subst hx; simp [insertRec, List.lookup]
      · have : (x == k0) = false := by simpa using hx
        simp [insertRec, List.lookup, this, hx]
    · by_cases hx : x = k0
      · subst hx
        have hxk : ¬ x = k := h0
        simp [insertRec, List.lookup, h0, hxk]
      · have : (x == k0) = false := by simpa using hx
        simp [insertRec, List.lookup, h0, this, ih]

theorem lookup_mergeList {α : Type} (names : List String) (m0 : List (String × α))
    (fetch : String → Option α) (k : String) :
    (mergeList m0 names fetch).lookup k =
      if k ∈ names ∧ (fetch k).isSome then fetch k else m0.lookup k := by
  induction names generalizing m0 with
  | nil => simp [mergeList]
  | cons n rest ih =>
    by_cases hk : k = n
    · subst hk
      cases hf : fetch k with
      | none =>
        simp only [mergeList, hf]
        rw [ih]
        simp [hf]
      | some v =>
        simp only [mergeList, hf]
        rw [ih]
        by_cases hm : k ∈ rest
        · simp [hm, hf]
        · simp [hm, hf, lookup_insertRec]
    · cases hf : fetch n with
      | none =>
        simp only [mergeList, hf]
        rw [ih]
        by_cases hm : k ∈ rest
        · simp [hm, hk]
        · simp [hm, hk]
      | some v =>
        simp only [mergeList, hf]
        rw [ih]
        by_cases hm : k ∈ rest
        · simp [hm, hk, lookup_insertRec]
        · simp [hm, hk, lookup_insertRec]

theorem computeMissing_eq_filter (listing : List ListingEntry) (known : List String) :
    computeMissing listing known =
      (listingNames listing).filter (fun n => !(n == "") && !(known.contains n)) := by
  induction listing with
  | nil => rfl
  | cons e rest ih =>
    obtain ⟨nm⟩ := e
    cases nm with
    | none =>
      simp only [computeMissing, entryName, jsStrOrNull, listingNames, List.filterMap_cons]
      exact ih
    | some s =>
      by_cases hs : s = ""
      · subst hs
        simp only [computeMissing, entryName, jsStrOrNull, listingNames, List.filterMap_cons,
          if_pos rfl]
        simpa using ih
      · by_cases hm : s ∈ known
        · simp only [computeMissing, entryName, jsStrOrNull, listingNames, List.filterMap_cons,
            if_neg hs]
          simp [hm, hs, ih, List.filter_cons, listingNames]
        · simp only [computeMissing, entryName, jsStrOrNull, listingNames, List.filterMap_cons,
            if_neg hs]
          simp [hm, hs, ih, List.filter_cons, listingNames]

theorem contains_eq_false_of_mem_computeMissing (listing : List ListingEntry)
    (known : List String) (k : String) (h : k ∈ computeMissing listing known) :
    known.contains k = false := by
  rw [computeMissing_eq_filter] at h
  have := List.of_mem_filter h
  simp only [Bool.and_eq_true] at this
  simpa using this.2

theorem poolExecGo_zero_workers (ok : Nat → Bool) (p r : Nat) : poolExecGo ok p r 0 = [] := by
  cases r <;> rfl

theorem poolExecGo_map_fst (ok : Nat → Bool) :
    ∀ (r p a : Nat), (poolExecGo ok p r (a + 1)).map Prod.fst = List.range' p r := by
  intro r
  induction r with
  | zero => intro p a; rfl
  | succ r ih =>
    intro p a
    simp only [poolExecGo, List.map_cons, ih, List.range'_succ]

theorem withPoolAttempts_fst (len : Nat) (pool : Option Int) (ok : Nat → Bool)
    (h : 1 ≤ numWorkers pool len) :
    (withPoolAttempts len pool ok).map Prod.fst = List.range len := by
  obtain ⟨a, ha⟩ : ∃ a, numWorkers pool len = a + 1 :=
    ⟨numWorkers pool len - 1, by omega⟩
  rw [withPoolAttempts, ha, poolExecGo_map_fst, List.range_eq_range']

theorem withPoolAttempts_no_workers (len : Nat) (pool : Option Int) (ok : Nat → Bool)
    (h : numWorkers pool len = 0) : withPoolAttempts len pool ok = [] := by
  rw [withPoolAttempts, h, poolExecGo_zero_workers]

theorem numWorkers_nonpos (z : Int) (len : Nat) (h : z ≤ 0) :
    numWorkers (some z) len = 0 := by
  by_cases hz : z < 0
  · simp [numWorkers, hz]
  · have hz0 : z = 0 := le_antisymm h (not_lt.mp hz)
    subst hz0
    simp [numWorkers]

theorem numWorkers_pos (w : Int) (len : Nat) (hw : 1 ≤ w) (hl : 1 ≤ len) :
    1 ≤ numWorkers (some w) len := by
  simp only [numWorkers]
  rw [if_neg (by omega)]
  exact Nat.le_min.mpr ⟨by omega, hl⟩

theorem foldl_poolExecGo_merge {α : Type} (missing : List String) (fetch : String → Option α)
    (ok : Nat → Bool) :
    ∀ (r p a : Nat) (m0 : List (String × α)), p + r = missing.length →
      ((poolExecGo ok p r (a + 1)).map Prod.fst).foldl (applyAttempt missing fetch) m0 =
        mergeList m0 (missing.drop p) fetch := by
  intro r
  induction r with
  | zero =>
    intro p a m0 h
    have hle : missing.length ≤ p := by omega
    simp [poolExecGo, List.drop_eq_nil_of_le hle, mergeList]
  | succ r ih =>
    intro p a m0 h
    have hp : p < missing.length := by omega
    simp only [poolExecGo, List.map_cons, List.foldl_cons]
    rw [List.drop_eq_getElem_cons hp]
    have hget : missing[p]? = some missing[p] := List.getElem?_eq_getElem hp
    cases hf : fetch missing[p] with
    | some v =>
      have hstep : applyAttempt missing fetch m0 p = insertRec m0 missing[p] v := by
        simp [applyAttempt, hget, hf]
      rw [hstep]
      have := ih (p + 1) a (insertRec m0 missing[p] v) (by omega)
      simpa [mergeList, hf] using this
    | none =>
      have hstep : applyAttempt missing fetch m0 p = m0 := by
        simp [applyAttempt, hget, hf]
      rw [hstep]
      have := ih (p + 1) a m0 (by omega)
      simpa [mergeList, hf] using this

theorem poolOutcome_fst {α : Type} (m0 : List (String × α)) (missing : List String)
    (fetch : String → Option α) (pool : Option Int)
    (h : 1 ≤ numWorkers pool missing.length) :
    (poolOutcome m0 missing fetch pool).1 = mergeList m0 missing fetch := by
  obtain ⟨a, ha⟩ : ∃ a, numWorkers pool missing.length = a + 1 :=
    ⟨numWorkers pool missing.length - 1, by omega⟩
  simp only [poolOutcome, withPoolAttempts, ha]
  simpa using foldl_poolExecGo_merge missing fetch _ missing.length 0 a m0 (by omega)

theorem poolOutcome_fst_no_workers {α : Type} (m0 : List (String × α)) (missing : List String)
    (fetch : String → Option α) (pool : Option Int)
    (h : numWorkers pool missing.length = 0) :
    (poolOutcome m0 missing fetch pool).1 = m0 := by
  simp only [poolOutcome, withPoolAttempts, h, poolExecGo_zero_workers]
  rfl

theorem engineRun_loaded {α : Type} (cfg : EngineCfg) (fs : String → Bool)
    (content : String → List (String × α)) (url0 : Option String) (probe : CountField)
    (listing : List ListingEntry) (pool : Option Int) (fetch : String → Option α)
    (today : String) :
    (engineRun cfg fs content url0 probe listing pool fetch today).loaded =
      loadStage fs content url0 := by
  simp only [engineRun]
  split
  · rfl
  · split <;> rfl

theorem engineRun_known {α : Type} (cfg : EngineCfg) (fs : String → Bool)
    (content : String → List (String × α)) (url0 : Option String) (probe : CountField)
    (listing : List ListingEntry) (pool : Option Int) (fetch : String → Option α)
    (today : String) :
    (engineRun cfg fs content url0 probe listing pool fetch today).known =
      keysOf (loadStage fs content url0) := by
  simp only [engineRun]
  split
  · rfl
  · split <;> rfl

theorem engineRun_probe_iff {α : Type} (cfg : EngineCfg) (fs : String → Bool)
    (content : String → List (String × α)) (url0 : Option String) (probe : CountField)
    (listing : List ListingEntry) (pool : Option Int) (fetch : String → Option α)
    (today : String) :
    ((engineRun cfg fs content url0 probe listing pool fetch today).outcome =
      Outcome.stoppedAtProbe)
    ↔ probeStops ((keysOf (loadStage fs content url0)).length == 0)
        (getCountFromListResponse probe)
        (keysOf (loadStage fs content url0)).length = true := by
  by_cases h1 : probeStops ((keysOf (loadStage fs content url0)).length == 0)
      (getCountFromListResponse probe) (keysOf (loadStage fs content url0)).length = true
  · simp [engineRun, h1]
  · by_cases h2 : (computeMissing listing (keysOf (loadStage fs content url0))).isEmpty = true
    · simp [engineRun, h1, h2]
    · simp [engineRun, h1, h2]

theorem engineRun_probe_events {α : Type} (cfg : EngineCfg) (fs : String → Bool)
    (content : String → List (String × α)) (url0 : Option String) (probe : CountField)
    (listing : List ListingEntry) (pool : Option Int) (fetch : String → Option α)
    (today : String)
    (h : (engineRun cfg fs content url0 probe listing pool fetch today).outcome =
      Outcome.stoppedAtProbe) :
    (engineRun cfg fs content url0 probe listing pool fetch today).events = [] := by
  have h1 := (engineRun_probe_iff cfg fs content url0 probe listing pool fetch today).mp h
  simp [engineRun, h1]

theorem engineRun_published {α : Type} (cfg : EngineCfg) (fs : String → Bool)
    (content : String → List (String × α)) (url0 : Option String) (probe : CountField)
    (listing : List ListingEntry) (pool : Option Int) (fetch : String → Option α)
    (today : String) (pub : List (String × α)) (f : String)
    (h : (engineRun cfg fs content url0 probe listing pool fetch today).outcome =
      Outcome.published pub f) :
    pub = (poolOutcome (loadStage fs content url0)
        (computeMissing listing (keysOf (loadStage fs content url0))) fetch pool).1
    ∧ f = newFileOf cfg today
    ∧ (engineRun cfg fs content url0 probe listing pool fetch today).missing =
        computeMissing listing (keysOf (loadStage fs content url0))
    ∧ (engineRun cfg fs content url0 probe listing pool fetch today).missing ≠ []
    ∧ (engineRun cfg fs content url0 probe listing pool fetch today).events =
        publishEvents cfg today (oldFileOf url0) := by
  by_cases h1 : probeStops ((keysOf (loadStage fs content url0)).length == 0)
      (getCountFromListResponse probe) (keysOf (loadStage fs content url0)).length = true
  · simp [engineRun, h1] at h
  · by_cases h2 : (computeMissing listing (keysOf (loadStage fs content url0))).isEmpty = true
    · simp [engineRun, h1, h2] at h
    · have heq : engineRun cfg fs content url0 probe listing pool fetch today =
          ⟨loadStage fs content url0, keysOf (loadStage fs content url0),
            computeMissing listing (keysOf (loadStage fs content url0)),
            Outcome.published (poolOutcome (loadStage fs content url0)
              (computeMissing listing (keysOf (loadStage fs content url0))) fetch pool).1
              (newFileOf cfg today),
            publishEvents cfg today (oldFileOf url0)⟩ := by
        simp [engineRun, h1, h2]
      rw [heq] at h
      simp only [Outcome.published.injEq] at h
      rw [heq]
      refine ⟨h.1.symm, h.2.symm, rfl, ?_, rfl⟩
      intro hnil
      simp only at hnil
      exact h2 (by simp [hnil])

theorem movesRun_null_url {α : Type} (fs : String → Bool)
    (content : String → List (String × α)) (url0 : Option String) (probe : CountField)
    (listing : List ListingEntry) (pool : Option Int) (fetch : String → Option α)
    (today : String) (h : jsStrOrNull url0 = none) :
    movesRun fs content url0 probe listing pool fetch today =
      Except.error ("manifest.json no tiene moves_url") := by
  simp [movesRun, h]

theorem movesRun_missing_file {α : Type} (fs : String → Bool)
    (content : String → List (String × α)) (url0 : Option String) (probe : CountField)
    (listing : List ListingEntry) (pool : Option Int) (fetch : String → Option α)
    (today : String) (u g : String) (hu : jsStrOrNull url0 = some u)
    (hl : lastSegment u = some g) (hfs : fs g = false) :
    movesRun fs content url0 probe listing pool fetch today =
      Except.error (String.append ("No existe el archivo actual: ") g) := by
  simp [movesRun, hu, hl, hfs]

theorem movesRun_ok {α : Type} (fs : String → Bool)
    (content : String → List (String × α)) (url0 : Option String) (probe : CountField)
    (listing : List ListingEntry) (pool : Option Int) (fetch : String → Option α)
    (today : String) (r : RunResult α)
    (h : movesRun fs content url0 probe listing pool fetch today = Except.ok r) :
    ∃ oldF, oldFileOf url0 = some oldF ∧ fs oldF = true
      ∧ r.loaded = content oldF
      ∧ r.known = keysOf (content oldF)
      ∧ (r.outcome = Outcome.stoppedAtProbe ↔
          movesProbeStops (getCountFromListResponse probe)
            (keysOf (content oldF)).length = true)
      ∧ (r.outcome = Outcome.stoppedAtProbe → r.events = [])
      ∧ (∀ pub f, r.outcome = Outcome.published pub f →
          pub = (poolOutcome (content oldF)
              (computeMissing listing (keysOf (content oldF))) fetch pool).1
          ∧ f = movesNewFile today
          ∧ r.missing = computeMissing listing (keysOf (content oldF))
          ∧ r.missing ≠ []
          ∧ r.events = movesEvents today oldF) := by
  cases hu : jsStrOrNull url0 with
  | none => simp [movesRun, hu] at h
  | some urlPath =>
    cases hl : lastSegment urlPath with
    | none => simp [movesRun, hu, hl] at h
    | some oldF =>
      by_cases hfs : fs oldF = true
      · refine ⟨oldF, by simp [oldFileOf, hu, hl], hfs, ?_⟩
        by_cases hp : movesProbeStops (getCountFromListResponse probe)
            (keysOf (content oldF)).length = true
        · have heq : movesRun fs content url0 probe listing pool fetch today =
              Except.ok ⟨content oldF, keysOf (content oldF), [],
                Outcome.stoppedAtProbe, []⟩ := by
            simp [movesRun, hu, hl, hfs, hp]
          rw [heq] at h
          simp only [Except.ok.injEq] at h
          subst h
          refine ⟨rfl, rfl, by simp [hp], by simp, ?_⟩
          intro pub f hcon
          simp at hcon
        · by_cases hm : (computeMissing listing (keysOf (content oldF))).isEmpty = true
          · have heq : movesRun fs content url0 probe listing pool fetch today =
                Except.ok ⟨content oldF, keysOf (content oldF),
                  computeMissing listing (keysOf (content oldF)),
                  Outcome.stoppedNoMissing, []⟩ := by
              simp [movesRun, hu, hl, hfs, hp, hm]
            rw [heq] at h
            simp only [Except.ok.injEq] at h
            subst h
            refine ⟨rfl, rfl, by simp [hp], by simp, ?_⟩
            intro pub f hcon
            simp at hcon
          · have heq : movesRun fs content url0 probe listing pool fetch today =
                Except.ok ⟨content oldF, keysOf (content oldF),
                  computeMissing listing (keysOf (content oldF)),
                  Outcome.published (poolOutcome (content oldF)
                    (computeMissing listing (keysOf (content oldF))) fetch pool).1
                    (movesNewFile today),
                  movesEvents today oldF⟩ := by
              simp [movesRun, hu, hl, hfs, hp, hm]
            rw [heq] at h
            simp only [Except.ok.injEq] at h
            subst h
            refine ⟨rfl, rfl, by simp [hp], by simp, ?_⟩
            intro pub f hpf
            simp only [Outcome.published.injEq] at hpf
            refine ⟨hpf.1.symm, hpf.2.symm, rfl, ?_, rfl⟩
            intro hnil
            simp only at hnil
            exact hm (by simp [hnil])
      · have hfs' : fs oldF = false := by
          cases hb : fs oldF
          · rfl
          · exact absurd hb hfs
        simp [movesRun, hu, hl, hfs'] at h

theorem deleteFile_mem_publishEvents (cfg : EngineCfg) (today : String)
    (oldF : Option String) (g : String) :
    FsEvent.deleteFile g ∈ publishEvents cfg today oldF ↔
      (oldF = some g ∧ g ≠ newFileOf cfg today) := by
  cases oldF with
  | none => simp [publishEvents]
  | some o =>
    by_cases ho : o = newFileOf cfg today
    · subst ho
      simp [publishEvents]
      intro hgo
      subst hgo
      simp
    · simp only [publishEvents, if_neg ho]
      constructor
      · intro hmem
        simp only [List.mem_cons, List.not_mem_nil, or_false] at hmem
        rcases hmem with h | h | h
        · exact absurd h (by simp)
        · exact absurd h (by simp)
        · injection h with hgo
          subst hgo
          exact ⟨rfl, ho⟩
      · intro ⟨h1, h2⟩
        simp at h1
        subst h1
        simp

theorem deleteFile_mem_movesEvents (today : String) (oldF g : String) :
    FsEvent.deleteFile g ∈ movesEvents today oldF ↔
      (oldF = g ∧ g ≠ movesNewFile today) := by
  by_cases ho : oldF = movesNewFile today
  · subst ho
    simp [movesEvents]
    intro hgo
    subst hgo
    simp
  · simp only [movesEvents, if_neg ho]
    constructor
    · intro hmem
      simp only [List.mem_cons, List.not_mem_nil, or_false] at hmem
      rcases hmem with h | h | h
      · exact absurd h (by simp)
      · exact absurd h (by simp)
      · injection h with hgo
        subst hgo
        exact ⟨rfl, ho⟩
    · intro ⟨h1, h2⟩
      subst h1
      simp

theorem runFs_publish_same (cfg : EngineCfg) (today : String) :
    runFs [newFileOf cfg today]
      (publishEvents cfg today (some (newFileOf cfg today))) = [newFileOf cfg today] := by
  simp [runFs, publishEvents, applyFs]

theorem runFs_publish_differ (cfg : EngineCfg) (today : String) (g : String)
    (h : g ≠ newFileOf cfg today) :
    runFs [g] (publishEvents cfg today (some g)) = [newFileOf cfg today] := by
  have hc : ([g].contains (newFileOf cfg today)) = false := by
    simp [List.contains]
    exact fun hgn => h hgn.symm
  have h2 : ¬ (newFileOf cfg today = g) := fun hh => h hh.symm
  simp [runFs, publishEvents, applyFs, if_neg h, hc, h2, List.erase_cons]

theorem runFs_moves_same (today : String) :
    runFs [movesNewFile today]
      (movesEvents today (movesNewFile today)) = [movesNewFile today] := by
  simp [runFs, movesEvents, applyFs]

theorem runFs_moves_differ (today : String) (g : String) (h : g ≠ movesNewFile today) :
    runFs [g] (movesEvents today g) = [movesNewFile today] := by
  have hc : ([g].contains (movesNewFile today)) = false := by
    simp [List.contains]
    exact fun hgn => h hgn.symm
  have h2 : ¬ (movesNewFile today = g) := fun hh => h hh.symm
  simp [runFs, movesEvents, applyFs, if_neg h, hc, h2, List.erase_cons]

theorem withPoolAttempts_fst_pool_pos (len : Nat) (w : Int) (hw : 1 ≤ w) (ok : Nat → Bool) :
    (withPoolAttempts len (some w) ok).map Prod.fst = List.range len := by
  cases len with
  | zero =>
    have hnil : withPoolAttempts 0 (some w) ok = [] := by
      rw [withPoolAttempts]
      cases numWorkers (some w) 0 <;> rfl
    simp [hnil]
  | succ n =>
    exact withPoolAttempts_fst _ _ _ (numWorkers_pos w _ hw (by omega))

theorem getD_ne_empty_of_jsTruthyStr (o : Option String) (h : jsTruthyStr o = true) :
    o.getD "" ≠ "" := by
  cases o with
  | none => simp [jsTruthyStr] at h
  | some s =>
    simp only [jsTruthyStr, Bool.not_eq_true'] at h
    simpa using h

/-- C7: `getCountFromListResponse` returns the server-reported count exactly
when the `count` field is a finite number, and unknown (null) in every
other case — a missing, non-numeric, NaN or infinite count is never coerced
to zero. -/
theorem claim7_probe_count :
    ∀ (r : CountField) (n : Int),
      getCountFromListResponse r = some n ↔ r = CountField.finite n := by
  intro r n
  cases r <;> simp [getCountFromListResponse]

/-- C1 counterexample: for the listing with one entry whose name is the
empty string and an empty prior key set, the scripts' missing list is empty
(the guard `name && ...` skips a falsy name) although the claimed formula
names(L) \ K contains the empty string, so the claim as stated is false at
this input. -/
theorem claim1_counterexample :
    ¬ ((("") ∈ computeMissing [⟨some ("")⟩] []) ↔
        (("") ∈ listingNames [⟨some ("")⟩] ∧ ("") ∉ ([] : List String))) := by
  decide

/-- C1 (amended): the computed missing list equals, in listing order, the
listing entry names that are truthy (present and nonempty) and not in the
known key set; entries with a missing or empty name are skipped by the
guard `name && !knownKeys.has(name)`, so as a set missing(L, K) equals
(nonempty names of L) \ K — not names(L) \ K — regardless of the probe
outcome. -/
theorem claim1_missing_diff (listing : List ListingEntry) (known : List String) :
    computeMissing listing known =
      (listingNames listing).filter (fun n => !(n == "") && !(known.contains n)) :=
  computeMissing_eq_filter listing known

/-- C8 counterexample: with configured pool size 0 and one task, withPool
starts no worker and attempts nothing, so it is not the case that every
item is attempted exactly once for every pool size, as the claim states. -/
theorem claim8_counterexample :
    ¬ ((withPoolAttempts 1 (some 0) (fun _ => true)).map Prod.fst = List.range 1) := by
  decide

/-- C8 (amended): for every task list and every configured pool size of at
least 1, withPool starts exactly min(pool size, number of tasks) workers —
in particular at most the configured pool size — and the pool attempts
every item exactly once, in FIFO intake order, with no retries; which items
are attempted is independent of which attempts fail, so a caught failure
neither cancels sibling tasks nor stops the pool from pulling the remaining
items.  (A pool size below 1 starts no workers and attempts nothing.) -/
theorem claim8_pool (items : List String) (w : Int) (hw : 1 ≤ w)
    (ok fl : Nat → Bool) :
    numWorkers (some w) items.length = min w.toNat items.length
    ∧ numWorkers (some w) items.length ≤ w.toNat
    ∧ (withPoolAttempts items.length (some w) ok).map Prod.fst = List.range items.length
    ∧ (withPoolAttempts items.length (some w) ok).map Prod.fst =
        (withPoolAttempts items.length (some w) fl).map Prod.fst := by
  have hmin : numWorkers (some w) items.length = min w.toNat items.length := by
    simp only [numWorkers]
    rw [if_neg (by omega)]
  refine ⟨hmin, by rw [hmin]; exact Nat.min_le_left _ _, ?_, ?_⟩
  · exact withPoolAttempts_fst_pool_pos items.length w hw ok
  · rw [withPoolAttempts_fst_pool_pos items.length w hw ok,
      withPoolAttempts_fst_pool_pos items.length w hw fl]

/-- Witness for claim8_pool: pool size 2, three tasks, the second of which
fails; every item is still attempted exactly once. -/
theorem claim8_witness :
    numWorkers (some 2) 3 = min (Int.toNat 2) 3
    ∧ numWorkers (some 2) 3 ≤ Int.toNat 2
    ∧ (withPoolAttempts 3 (some 2) (fun i => !(i == 1))).map Prod.fst = List.range 3
    ∧ (withPoolAttempts 3 (some 2) (fun i => !(i == 1))).map Prod.fst =
        (withPoolAttempts 3 (some 2) (fun _ => true)).map Prod.fst := by
  have h := claim8_pool [("a"), ("b"), ("c")] 2 (by decide)
    (fun i => !(i == 1)) (fun _ => true)
  simpa using h

/-- C9 counterexample: for a move detail document with no Spanish entry in
its names array, the moves extractor stores display = null — the stored
display field is not "never empty or null" as the claim states for the
extractors it covers. -/
theorem claim9_counterexample : moveDisplay ⟨[]⟩ = none := rfl

/-- C9 (amended): the abilities extractor's display follows the fallback
chain target locale (es) name, else secondary locale (en) name, else the
document's own `name` field when truthy, else the requested key — so it is
never empty when the key is nonempty; the moves extractor instead stores
the first Spanish name or null, with no English or key fallback, so its
stored display can be null. -/
theorem claim9_display_fallback (doc : AbilityDoc) (key : String) (mdoc : MoveDoc) :
    (key ≠ "" → abilityDisplay doc key ≠ "")
    ∧ (∀ n, doc.names.find? (fun e => e.language == some ("es") && jsTruthyStr e.name) = some n →
        abilityDisplay doc key = n.name.getD "")
    ∧ (∀ n, doc.names.find? (fun e => e.language == some ("es") && jsTruthyStr e.name) = none →
        doc.names.find? (fun e => e.language == some ("en") && jsTruthyStr e.name) = some n →
        abilityDisplay doc key = n.name.getD "")
    ∧ (doc.names.find? (fun e => e.language == some ("es") && jsTruthyStr e.name) = none →
        doc.names.find? (fun e => e.language == some ("en") && jsTruthyStr e.name) = none →
        jsTruthyStr doc.name = true → abilityDisplay doc key = doc.name.getD "")
    ∧ (doc.names.find? (fun e => e.language == some ("es") && jsTruthyStr e.name) = none →
        doc.names.find? (fun e => e.language == some ("en") && jsTruthyStr e.name) = none →
        jsTruthyStr doc.name = false → abilityDisplay doc key = key)
    ∧ (pickSpanishName mdoc.names = none → moveDisplay mdoc = none) := by
  refine ⟨?_, ?_, ?_, ?_, ?_, ?_⟩
  · intro hk
    by_cases hp : pickNameEsOrEn doc = ""
    · simpa [abilityDisplay, hp] using hk
    · simp [abilityDisplay, hp]
  · intro n hes
    have hp := List.find?_some hes
    simp only [Bool.and_eq_true] at hp
    have hne := getD_ne_empty_of_jsTruthyStr n.name hp.2
    have hpick : pickNameEsOrEn doc = n.name.getD "" := by
      simp [pickNameEsOrEn, hes]
    simp [abilityDisplay, hpick, hne]
  · intro n hes hen
    have hp := List.find?_some hen
    simp only [Bool.and_eq_true] at hp
    have hne := getD_ne_empty_of_jsTruthyStr n.name hp.2
    have hpick : pickNameEsOrEn doc = n.name.getD "" := by
      simp [pickNameEsOrEn, hes, hen]
    simp [abilityDisplay, hpick, hne]
  · intro hes hen ht
    have hne := getD_ne_empty_of_jsTruthyStr doc.name ht
    have hpick : pickNameEsOrEn doc = doc.name.getD "" := by
      simp [pickNameEsOrEn, hes, hen, ht]
    simp [abilityDisplay, hpick, hne]
  · intro hes hen hf
    have hpick : pickNameEsOrEn doc = "" := by
      simp [pickNameEsOrEn, hes, hen, hf]
    simp [abilityDisplay, hpick]
  · intro hnone
    simp [moveDisplay, hnone, jsStrOrNull]

/-- Witness for claim9_display_fallback: a document with no name entries
and no own name field falls back to the (nonempty) requested key. -/
theorem claim9_witness :
    abilityDisplay ⟨[], none⟩ ("intimidate") ≠ ""
    ∧ abilityDisplay ⟨[], none⟩ ("intimidate") = ("intimidate") := by
  refine ⟨(claim9_display_fallback ⟨[], none⟩ ("intimidate") ⟨[]⟩).1 (by decide), ?_⟩
  exact (claim9_display_fallback ⟨[], none⟩ ("intimidate") ⟨[]⟩).2.2.2.2.1 rfl rfl rfl

/-- C2: in every publishing run of the abilities/pokemon engine with a
configured pool size of at least 1, the published snapshot mapping equals
the prior snapshot's entries plus exactly the successfully fetched missing
entries under their own keys: each key's published value is the fetched
record when the key is in the missing list and its fetch succeeded, and its
prior value otherwise; every missing-list key (in particular every failed
one) is absent from the prior snapshot, so failed keys are absent from the
published snapshot; and every key present in the published snapshot was
either present in the prior snapshot or successfully fetched this run. -/
theorem claim2_partial_failure {α : Type} (cfg : EngineCfg) (fs : String → Bool)
    (content : String → List (String × α)) (url0 : Option String) (probe : CountField)
    (listing : List ListingEntry) (pool : Option Int) (fetch : String → Option α)
    (today : String) (w : Int) (pub : List (String × α)) (f : String)
    (hp : pool = some w) (hw : 1 ≤ w)
    (hpub : (engineRun cfg fs content url0 probe listing pool fetch today).outcome =
      Outcome.published pub f) :
    ∀ k,
      (pub.lookup k =
        if k ∈ (engineRun cfg fs content url0 probe listing pool fetch today).missing
            ∧ (fetch k).isSome
        then fetch k
        else ((engineRun cfg fs content url0 probe listing pool fetch today).loaded).lookup k)
      ∧ (k ∈ (engineRun cfg fs content url0 probe listing pool fetch today).missing →
          ((engineRun cfg fs content url0 probe listing pool fetch today).loaded).lookup k
            = none)
      ∧ ((pub.lookup k).isSome →
          (((engineRun cfg fs content url0 probe listing pool fetch today).loaded).lookup k).isSome
          ∨ (k ∈ (engineRun cfg fs content url0 probe listing pool fetch today).missing
              ∧ (fetch k).isSome)) := by
  obtain ⟨hpub1, hf, hmiss, hne, hev⟩ :=
    engineRun_published cfg fs content url0 probe listing pool fetch today pub f hpub
  have hload := engineRun_loaded cfg fs content url0 probe listing pool fetch today
  rw [hmiss] at hne
  have hlen : 1 ≤ (computeMissing listing (keysOf (loadStage fs content url0))).length :=
    List.length_pos.mpr hne
  have hnw : 1 ≤ numWorkers pool
      (computeMissing listing (keysOf (loadStage fs content url0))).length := by
    subst hp
    exact numWorkers_pos w _ hw hlen
  have hpm : pub = mergeList (loadStage fs content url0)
      (computeMissing listing (keysOf (loadStage fs content url0))) fetch := by
    rw [hpub1]
    exact poolOutcome_fst _ _ fetch pool hnw
  intro k
  rw [hload, hmiss, hpm]
  refine ⟨lookup_mergeList _ _ fetch k, ?_, ?_⟩
  · intro hkM
    apply lookup_eq_none_of_not_mem
    intro hmem
    have hc := contains_eq_false_of_mem_computeMissing listing
      (keysOf (loadStage fs content url0)) k hkM
    have hin : k ∈ keysOf (loadStage fs content url0) := by
      rw [keysOf]
      exact List.mem_dedup.mpr hmem
    simp [hin] at hc
  · intro hsome
    by_cases hcase : k ∈ computeMissing listing (keysOf (loadStage fs content url0))
        ∧ (fetch k).isSome
    · exact Or.inr hcase
    · left
      rwa [lookup_mergeList _ _ fetch k, if_neg hcase] at hsome

/-- Witness for claim2_partial_failure: a bootstrap run over the listing
[alpha, beta] in which the fetch of beta fails; the published snapshot
holds exactly alpha. -/
theorem claim2_witness :
    (([("alpha", (1 : Nat))] : List (String × Nat)).lookup ("beta") = none)
    ∧ (([("alpha", (1 : Nat))] : List (String × Nat)).lookup ("alpha") = some 1) := by
  have h := claim2_partial_failure abilityCfg (fun _ => false)
    (fun _ => ([] : List (String × Nat))) none CountField.absent
    [⟨some ("alpha")⟩, ⟨some ("beta")⟩] (some 2)
    (fun n => if n = "alpha" then some 1 else none) ("2026-10-11") 2
    [("alpha", 1)] ("ability_map.2026-10-11.json") rfl (by decide) (by decide)
  have hb := (h ("beta")).1
  have ha := (h ("alpha")).1
  constructor
  · rw [hb]
    decide
  · rw [ha]
    decide

/-- C3: in every publishing run — of the abilities/pokemon engine and of the
moves engine — the event trace starts with the write of the new snapshot
file, immediately followed by the manifest write referencing that same
file, and every later event is only a best-effort delete: the snapshot file
is written (and hence exists) strictly before the manifest is repointed at
it. -/
theorem claim3_write_order {α β : Type} (cfg : EngineCfg) (fs : String → Bool)
    (content : String → List (String × α)) (url0 : Option String) (probe : CountField)
    (listing : List ListingEntry) (pool : Option Int) (fetch : String → Option α)
    (today : String) (pub : List (String × α)) (f : String)
    (mfs : String → Bool) (mcontent : String → List (String × β)) (murl0 : Option String)
    (mprobe : CountField) (mlisting : List ListingEntry) (mpool : Option Int)
    (mfetch : String → Option β) (mtoday : String) (mr : RunResult β)
    (mpub : List (String × β)) (mf : String)
    (hpub : (engineRun cfg fs content url0 probe listing pool fetch today).outcome =
      Outcome.published pub f)
    (hok : movesRun mfs mcontent murl0 mprobe mlisting mpool mfetch mtoday = Except.ok mr)
    (hmpub : mr.outcome = Outcome.published mpub mf) :
    (∃ tail, (engineRun cfg fs content url0 probe listing pool fetch today).events =
        FsEvent.writeSnapshot f ::
        FsEvent.writeManifest ("/" ++ cfg.dir ++ "/" ++ f) today :: tail
      ∧ ∀ e ∈ tail, ∃ g, e = FsEvent.deleteFile g)
    ∧ (∃ mtail, mr.events =
        FsEvent.writeSnapshot mf ::
        FsEvent.writeManifest ("/moves/" ++ mf) mtoday :: mtail
      ∧ ∀ e ∈ mtail, ∃ g, e = FsEvent.deleteFile g) := by
  obtain ⟨hpub1, hf, hmiss, hne, hev⟩ :=
    engineRun_published cfg fs content url0 probe listing pool fetch today pub f hpub
  obtain ⟨oldF, ho1, ho2, hl, hk, hpiff, hpe, hppub⟩ :=
    movesRun_ok mfs mcontent murl0 mprobe mlisting mpool mfetch mtoday mr hok
  obtain ⟨hm1, hm2, hm3, hm4, hm5⟩ := hppub mpub mf hmpub
  subst hf
  subst hm2
  constructor
  · rw [hev]
    cases hO : oldFileOf url0 with
    | none => exact ⟨[], by simp [publishEvents], by simp⟩
    | some g =>
      by_cases hg : g = newFileOf cfg today
      · exact ⟨[], by simp [publishEvents, hg], by simp⟩
      · exact ⟨[FsEvent.deleteFile g], by simp [publishEvents, hg], by simp⟩
  · rw [hm5]
    by_cases hg : oldF = movesNewFile mtoday
    · exact ⟨[], by simp [movesEvents, hg], by simp⟩
    · exact ⟨[FsEvent.deleteFile oldF], by simp [movesEvents, hg], by simp⟩


/-- Witness for claim3_write_order: a concrete publishing bootstrap run of
the abilities engine and a concrete publishing run of the moves engine. -/
theorem claim3_witness :
    (∃ tail, (engineRun abilityCfg (fun _ => false)
        (fun _ => ([] : List (String × Nat))) none CountField.absent
        [⟨some ("alpha")⟩] (some 1) (fun _ => some 1) ("2026-10-11")).events =
        FsEvent.writeSnapshot ("ability_map.2026-10-11.json") ::
        FsEvent.writeManifest ("/" ++ abilityCfg.dir ++ "/" ++ ("ability_map.2026-10-11.json"))
          ("2026-10-11") :: tail
      ∧ ∀ e ∈ tail, ∃ g, e = FsEvent.deleteFile g)
    ∧ (∃ mtail, (RunResult.mk ([] : List (String × Nat)) [] [("pound")]
        (Outcome.published [("pound", 1)] ("move_es_map.2026-10-11.json"))
        [FsEvent.writeSnapshot ("move_es_map.2026-10-11.json"),
         FsEvent.writeManifest ("/moves/move_es_map.2026-10-11.json") ("2026-10-11"),
         FsEvent.deleteFile ("move_es_map.2026-02-20.json")]).events =
        FsEvent.writeSnapshot ("move_es_map.2026-10-11.json") ::
        FsEvent.writeManifest ("/moves/" ++ ("move_es_map.2026-10-11.json"))
          ("2026-10-11") :: mtail
      ∧ ∀ e ∈ mtail, ∃ g, e = FsEvent.deleteFile g) :=
  claim3_write_order abilityCfg (fun _ => false)
    (fun _ => ([] : List (String × Nat))) none CountField.absent
    [⟨some ("alpha")⟩] (some 1) (fun _ => some 1) ("2026-10-11")
    [("alpha", 1)] ("ability_map.2026-10-11.json")
    (fun _ => true) (fun _ => ([] : List (String × Nat)))
    (some ("/moves/move_es_map.2026-02-20.json")) CountField.absent
    [⟨some ("pound")⟩] (some 1) (fun _ => some 1) ("2026-10-11")
    (RunResult.mk ([] : List (String × Nat)) [] [("pound")]
      (Outcome.published [("pound", 1)] ("move_es_map.2026-10-11.json"))
      [FsEvent.writeSnapshot ("move_es_map.2026-10-11.json"),
       FsEvent.writeManifest ("/moves/move_es_map.2026-10-11.json") ("2026-10-11"),
       FsEvent.deleteFile ("move_es_map.2026-02-20.json")])
    [("pound", 1)] ("move_es_map.2026-10-11.json")
    (by decide) rfl (by decide)

theorem probeStops_iff (len : Nat) (api : Option Int) :
    probeStops (len == 0) api len = true ↔
      (len ≠ 0 ∧ ∃ c, api = some c ∧ c ≤ (len : Int)) := by
  cases api with
  | none => simp [probeStops]
  | some c =>
    by_cases h : len = 0
    · simp [probeStops, h]
    · simp [probeStops, h]

theorem movesProbeStops_iff (len : Nat) (api : Option Int) :
    movesProbeStops api len = true ↔ (∃ c, api = some c ∧ c ≤ (len : Int)) := by
  cases api with
  | none => simp [movesProbeStops]
  | some c => simp [movesProbeStops]

/-- C4 counterexample: a moves run whose prior snapshot file exists but
holds an empty map — bootstrap by the spec's definition, knownKeys.size = 0
— together with a known probe count of 0 stops at the probe instead of
proceeding to the full listing, because the moves script's short-circuit
has no bootstrap guard; the claim's "in every other case (bootstrap, ...)
it proceeds to the full listing" is false at this input. -/
theorem claim4_counterexample :
    movesRun (fun _ => true) (fun _ => ([] : List (String × Nat)))
      (some ("/moves/move_es_map.2026-02-20.json")) (CountField.finite 0)
      [⟨some ("pound")⟩] (some 5) (fun _ => some 1) ("2026-10-11")
      = Except.ok ⟨[], [], [], Outcome.stoppedAtProbe, []⟩ := rfl

/-- C4 (amended): the abilities/pokemon engine stops at the probe — as a
no-op, with no filesystem event — exactly when the run is not in bootstrap
(known key set nonempty), the probe count is a known integer, and that
integer is at most the local key count; in every other case it proceeds
past the probe.  The moves engine stops whenever the probe count is known
and at most the local key count, with no bootstrap exemption: with an
empty prior map and probe count at most 0 it also stops. -/
theorem claim4_probe_shortcircuit {α β : Type} (cfg : EngineCfg) (fs : String → Bool)
    (content : String → List (String × α)) (url0 : Option String) (probe : CountField)
    (listing : List ListingEntry) (pool : Option Int) (fetch : String → Option α)
    (today : String)
    (mfs : String → Bool) (mcontent : String → List (String × β)) (murl0 : Option String)
    (mprobe : CountField) (mlisting : List ListingEntry) (mpool : Option Int)
    (mfetch : String → Option β) (mtoday : String) (mr : RunResult β)
    (hok : movesRun mfs mcontent murl0 mprobe mlisting mpool mfetch mtoday = Except.ok mr) :
    ((engineRun cfg fs content url0 probe listing pool fetch today).outcome =
        Outcome.stoppedAtProbe ↔
      ((engineRun cfg fs content url0 probe listing pool fetch today).known.length ≠ 0
        ∧ ∃ c, getCountFromListResponse probe = some c
            ∧ c ≤ ((engineRun cfg fs content url0 probe listing pool fetch today).known.length : Int)))
    ∧ ((engineRun cfg fs content url0 probe listing pool fetch today).outcome =
        Outcome.stoppedAtProbe →
        (engineRun cfg fs content url0 probe listing pool fetch today).events = [])
    ∧ (mr.outcome = Outcome.stoppedAtProbe ↔
        ∃ c, getCountFromListResponse mprobe = some c ∧ c ≤ (mr.known.length : Int))
    ∧ (mr.outcome = Outcome.stoppedAtProbe → mr.events = []) := by
  obtain ⟨oldF, ho1, ho2, hl, hk, hpiff, hpe, hppub⟩ :=
    movesRun_ok mfs mcontent murl0 mprobe mlisting mpool mfetch mtoday mr hok
  refine ⟨?_, engineRun_probe_events cfg fs content url0 probe listing pool fetch today, ?_, hpe⟩
  · rw [engineRun_probe_iff, engineRun_known, probeStops_iff]
  · rw [hpiff, movesProbeStops_iff, hk]

/-- Witness for claim4_probe_shortcircuit: an abilities run with one known
key and probe count 1 (count did not grow) stops at the probe and leaves no
filesystem event. -/
theorem claim4_witness :
    (engineRun abilityCfg (fun _ => true)
      (fun _ => ([("x", (1 : Nat))] : List (String × Nat)))
      (some ("/abilities/ability_map.2026-02-20.json")) (CountField.finite 1)
      [⟨some ("x")⟩] (some 5) (fun _ => some 1) ("2026-10-11")).events = [] := by
  have h := claim4_probe_shortcircuit abilityCfg (fun _ => true)
    (fun _ => ([("x", (1 : Nat))] : List (String × Nat)))
    (some ("/abilities/ability_map.2026-02-20.json")) (CountField.finite 1)
    [⟨some ("x")⟩] (some 5) (fun _ => some 1) ("2026-10-11")
    (fun _ => true) (fun _ => ([("y", (1 : Nat))] : List (String × Nat)))
    (some ("/moves/move_es_map.2026-02-20.json")) (CountField.finite 2)
    [⟨some ("y")⟩, ⟨some ("pound")⟩] (some 1) (fun _ => some 1) ("2026-10-11")
    (RunResult.mk ([("y", (1 : Nat))]) [("y")] [("pound")]
      (Outcome.published [("y", 1), ("pound", 1)] ("move_es_map.2026-10-11.json"))
      [FsEvent.writeSnapshot ("move_es_map.2026-10-11.json"),
       FsEvent.writeManifest ("/moves/move_es_map.2026-10-11.json") ("2026-10-11"),
       FsEvent.deleteFile ("move_es_map.2026-02-20.json")])
    rfl
  exact h.2.1 (h.1.mpr ⟨by decide, 1, by decide, by decide⟩)

/-- C5 counterexample: a moves run started with a null moves_url does not
start with an empty snapshot and proceed to the full listing — it aborts
with a fatal error before any listing, so the claim is false for the moves
engine it cites. -/
theorem claim5_counterexample :
    movesRun (fun _ => true) (fun _ => ([] : List (String × Nat))) none
      (CountField.finite 100) [⟨some ("pound")⟩] (some 5) (fun _ => some 1)
      ("2026-10-11")
      = Except.error ("manifest.json no tiene moves_url") := rfl

/-- C5 (amended): for the abilities/pokemon engine, a run started with a
null manifest pointer — or with a pointer whose referenced snapshot file
does not exist — starts with an empty snapshot and empty known keys, never
stops at the probe, and proceeds to the full listing regardless of the
probe result.  The moves engine instead aborts fatally in exactly these
situations: a null moves_url, or a referenced file that does not exist,
stops the run with an error before any listing. -/
theorem claim5_bootstrap {α β : Type} (cfg : EngineCfg) (fs : String → Bool)
    (content : String → List (String × α)) (url0 : Option String) (probe : CountField)
    (listing : List ListingEntry) (pool : Option Int) (fetch : String → Option α)
    (today : String)
    (mfs : String → Bool) (mcontent : String → List (String × β)) (murl0 : Option String)
    (mprobe : CountField) (mlisting : List ListingEntry) (mpool : Option Int)
    (mfetch : String → Option β) (mtoday : String)
    (hb : oldFileOf url0 = none ∨ ∃ g, oldFileOf url0 = some g ∧ fs g = false) :
    (engineRun cfg fs content url0 probe listing pool fetch today).loaded = []
    ∧ (engineRun cfg fs content url0 probe listing pool fetch today).known = []
    ∧ (engineRun cfg fs content url0 probe listing pool fetch today).outcome ≠
        Outcome.stoppedAtProbe
    ∧ (jsStrOrNull murl0 = none →
        movesRun mfs mcontent murl0 mprobe mlisting mpool mfetch mtoday =
          Except.error ("manifest.json no tiene moves_url"))
    ∧ (∀ u g, jsStrOrNull murl0 = some u → lastSegment u = some g → mfs g = false →
        movesRun mfs mcontent murl0 mprobe mlisting mpool mfetch mtoday =
          Except.error (String.append ("No existe el archivo actual: ") g)) := by
  have hload : loadStage fs content url0 = ([] : List (String × α)) := by
    rcases hb with h | ⟨g, hg, hgfs⟩
    · simp [loadStage, h]
    · simp [loadStage, hg, hgfs]
  have hknown : keysOf (loadStage fs content url0) = ([] : List String) := by
    rw [hload]
    rfl
  refine ⟨?_, ?_, ?_, ?_, ?_⟩
  · rw [engineRun_loaded, hload]
  · rw [engineRun_known, hknown]
  · intro hcon
    have hP := (engineRun_probe_iff cfg fs content url0 probe listing pool fetch today).mp hcon
    rw [hknown] at hP
    simp [probeStops] at hP
  · intro hnull
    exact movesRun_null_url mfs mcontent murl0 mprobe mlisting mpool mfetch mtoday hnull
  · intro u g hu hl hgfs
    exact movesRun_missing_file mfs mcontent murl0 mprobe mlisting mpool mfetch mtoday
      u g hu hl hgfs

/-- Witness for claim5_bootstrap: an abilities run whose manifest pointer is
null starts empty and does not stop at the probe even though the probe
count (0) does not exceed the local count; a moves run with a null pointer
errors out. -/
theorem claim5_witness :
    (engineRun abilityCfg (fun _ => true)
      (fun _ => ([("x", (1 : Nat))] : List (String × Nat))) none
      (CountField.finite 0) [] (some 5) (fun _ => none) ("2026-10-11")).known = []
    ∧ (engineRun abilityCfg (fun _ => true)
        (fun _ => ([("x", (1 : Nat))] : List (String × Nat))) none
        (CountField.finite 0) [] (some 5) (fun _ => none) ("2026-10-11")).outcome ≠
        Outcome.stoppedAtProbe
    ∧ movesRun (fun _ => true) (fun _ => ([] : List (String × Nat))) none
        (CountField.finite 0) [] (some 5) (fun _ => none) ("2026-10-11") =
        Except.error ("manifest.json no tiene moves_url") := by
  have h := claim5_bootstrap abilityCfg (fun _ => true)
    (fun _ => ([("x", (1 : Nat))] : List (String × Nat))) none
    (CountField.finite 0) [] (some 5) (fun _ => none) ("2026-10-11")
    (fun _ => true) (fun _ => ([] : List (String × Nat))) none
    (CountField.finite 0) [] (some 5) (fun _ => none) ("2026-10-11")
    (Or.inl rfl)
  exact ⟨h.2.1, h.2.2.1, h.2.2.2.1 rfl⟩

/-- C6: in every publishing run — of the abilities/pokemon engine and of the
moves engine — a best-effort delete of the previous snapshot file is issued
exactly when a previous snapshot file name was known and it differs from
the newly computed file name; when the two names are equal (two syncs on
the same calendar date) no delete is issued, and since the step-5 write
already overwrote the file in place, exactly one snapshot file remains on
disk. -/
theorem claim6_retirement {α β : Type} (cfg : EngineCfg) (fs : String → Bool)
    (content : String → List (String × α)) (url0 : Option String) (probe : CountField)
    (listing : List ListingEntry) (pool : Option Int) (fetch : String → Option α)
    (today : String) (pub : List (String × α)) (f : String)
    (mfs : String → Bool) (mcontent : String → List (String × β)) (murl0 : Option String)
    (mprobe : CountField) (mlisting : List ListingEntry) (mpool : Option Int)
    (mfetch : String → Option β) (mtoday : String) (mr : RunResult β)
    (mpub : List (String × β)) (mf : String)
    (hpub : (engineRun cfg fs content url0 probe listing pool fetch today).outcome =
      Outcome.published pub f)
    (hok : movesRun mfs mcontent murl0 mprobe mlisting mpool mfetch mtoday = Except.ok mr)
    (hmpub : mr.outcome = Outcome.published mpub mf) :
    (∀ g, FsEvent.deleteFile g ∈
        (engineRun cfg fs content url0 probe listing pool fetch today).events ↔
        (oldFileOf url0 = some g ∧ g ≠ f))
    ∧ (oldFileOf url0 = some f →
        runFs [f] (engineRun cfg fs content url0 probe listing pool fetch today).events = [f])
    ∧ (∀ g, FsEvent.deleteFile g ∈ mr.events ↔ (oldFileOf murl0 = some g ∧ g ≠ mf))
    ∧ (oldFileOf murl0 = some mf → runFs [mf] mr.events = [mf]) := by
  obtain ⟨hpub1, hf, hmiss, hne, hev⟩ :=
    engineRun_published cfg fs content url0 probe listing pool fetch today pub f hpub
  obtain ⟨oldF, ho1, ho2, hl, hk, hpiff, hpe, hppub⟩ :=
    movesRun_ok mfs mcontent murl0 mprobe mlisting mpool mfetch mtoday mr hok
  obtain ⟨hm1, hm2, hm3, hm4, hm5⟩ := hppub mpub mf hmpub
  subst hf
  subst hm2
  refine ⟨?_, ?_, ?_, ?_⟩
  · intro g
    rw [hev]
    exact deleteFile_mem_publishEvents cfg today (oldFileOf url0) g
  · intro hOF
    rw [hev, hOF]
    exact runFs_publish_same cfg today
  · intro g
    rw [hm5, ho1, deleteFile_mem_movesEvents]
    simp
  · intro hOF
    rw [ho1] at hOF
    have hEq : oldF = movesNewFile mtoday := Option.some.inj hOF
    rw [hm5, hEq]
    exact runFs_moves_same mtoday

/-- Witness for claim6_retirement: a publishing abilities run whose previous
file dates from 2026-02-20 issues a delete of exactly that file. -/
theorem claim6_witness :
    FsEvent.deleteFile ("ability_map.2026-02-20.json") ∈
      (engineRun abilityCfg (fun _ => true)
        (fun _ => ([("x", (1 : Nat))] : List (String × Nat)))
        (some ("/abilities/ability_map.2026-02-20.json")) (CountField.finite 2)
        [⟨some ("x")⟩, ⟨some ("y")⟩] (some 1)
        (fun n => if n = "y" then some 2 else none) ("2026-10-11")).events := by
  have h := claim6_retirement abilityCfg (fun _ => true)
    (fun _ => ([("x", (1 : Nat))] : List (String × Nat)))
    (some ("/abilities/ability_map.2026-02-20.json")) (CountField.finite 2)
    [⟨some ("x")⟩, ⟨some ("y")⟩] (some 1)
    (fun n => if n = "y" then some 2 else none) ("2026-10-11")
    [("x", 1), ("y", 2)] ("ability_map.2026-10-11.json")
    (fun _ => true) (fun _ => ([] : List (String × Nat)))
    (some ("/moves/move_es_map.2026-02-20.json")) CountField.absent
    [⟨some ("pound")⟩] (some 1) (fun _ => some 1) ("2026-10-11")
    (RunResult.mk ([] : List (String × Nat)) [] [("pound")]
      (Outcome.published [("pound", 1)] ("move_es_map.2026-10-11.json"))
      [FsEvent.writeSnapshot ("move_es_map.2026-10-11.json"),
       FsEvent.writeManifest ("/moves/move_es_map.2026-10-11.json") ("2026-10-11"),
       FsEvent.deleteFile ("move_es_map.2026-02-20.json")])
    [("pound", 1)] ("move_es_map.2026-10-11.json")
    (by decide) rfl (by decide)
  exact (h.1 ("ability_map.2026-02-20.json")).mpr ⟨by decide, by decide⟩

/-- C10: when the configured pool size does not parse to a number that is at
least 1 (NaN from a non-numeric environment value, zero, or negative),
withPool starts no workers and resolves without attempting any task; a
publishing run of the engine with such a pool still writes the new dated
snapshot file — whose mapping equals the prior snapshot's mapping — then
repoints the manifest at it, and issues a delete of the old file exactly
when the names differ. -/
theorem claim10_nan_pool {α : Type} (cfg : EngineCfg) (fs : String → Bool)
    (content : String → List (String × α)) (url0 : Option String) (probe : CountField)
    (listing : List ListingEntry) (pool : Option Int) (fetch : String → Option α)
    (today : String) (pub : List (String × α)) (f : String)
    (hpool : pool = none ∨ ∃ z, pool = some z ∧ z ≤ 0)
    (hpub : (engineRun cfg fs content url0 probe listing pool fetch today).outcome =
      Outcome.published pub f) :
    (∀ len ok, withPoolAttempts len pool ok = [])
    ∧ pub = (engineRun cfg fs content url0 probe listing pool fetch today).loaded
    ∧ f = newFileOf cfg today
    ∧ (engineRun cfg fs content url0 probe listing pool fetch today).events =
        publishEvents cfg today (oldFileOf url0)
    ∧ (∀ g, FsEvent.deleteFile g ∈
        (engineRun cfg fs content url0 probe listing pool fetch today).events ↔
        (oldFileOf url0 = some g ∧ g ≠ f)) := by
  have hzero : ∀ len, numWorkers pool len = 0 := by
    intro len
    rcases hpool with h | ⟨z, hz, hzle⟩
    · rw [h]
      rfl
    · rw [hz]
      exact numWorkers_nonpos z len hzle
  obtain ⟨hpub1, hf, hmiss, hne, hev⟩ :=
    engineRun_published cfg fs content url0 probe listing pool fetch today pub f hpub
  subst hf
  refine ⟨fun len ok => withPoolAttempts_no_workers len pool ok (hzero len), ?_, rfl, hev, ?_⟩
  · rw [engineRun_loaded, hpub1]
    exact poolOutcome_fst_no_workers _ _ fetch pool (hzero _)
  · intro g
    rw [hev]
    exact deleteFile_mem_publishEvents cfg today (oldFileOf url0) g

/-- Witness for claim10_nan_pool: with a NaN pool (non-numeric environment
value) and one missing entry, no task is attempted and the published
snapshot equals the (empty) prior snapshot. -/
theorem claim10_witness :
    withPoolAttempts 3 none (fun _ => true) = []
    ∧ ([] : List (String × Nat)) =
        (engineRun abilityCfg (fun _ => false) (fun _ => ([] : List (String × Nat))) none
          CountField.absent [⟨some ("alpha")⟩] none (fun _ => some 1)
          ("2026-10-11")).loaded := by
  have h := claim10_nan_pool abilityCfg (fun _ => false)
    (fun _ => ([] : List (String × Nat))) none CountField.absent
    [⟨some ("alpha")⟩] none (fun _ => some 1) ("2026-10-11")
    [] ("ability_map.2026-10-11.json") (Or.inl rfl) (by decide)
  exact ⟨h.1 3 (fun _ => true), h.2.1⟩
